import Mathlib

/-!
Verification of the extraction/classification core of the X-Ear spaCy backend
(src/spacy-backend/app.py).  Python strings are embedded as `List Char`
(one element per Unicode code point, as Python indexes strings).  The source
file contains mojibake (UTF-8 text that was decoded as Latin-1/CP1252 and
re-encoded), so many of its string literals hold characters such as
U+00C3/U+0153 instead of the intended Turkish letters; the embedding below
reproduces those literals code point for code point.
-/

namespace XEarSpacy

/-! ## Python string primitives -/

/-- Python `\s` / `str.strip()` whitespace set (the ASCII part, which covers
every character occurring in the analysed texts and tables). -/
def pyIsSpaceB (c : Char) : Bool :=
  c == ' ' || c == '\t' || c == '\n' || c == '\r' || c == '\u000B' || c == '\u000C'

/-- Python `str.upper` as a code-point-wise map, covering the code points that
occur in the repository's string tables and in the analysed inputs (for all of
those the mapping is 1-to-1); other code points are left unchanged. -/
def pyUpperChar (c : Char) : Char :=
  if 'a' ≤ c ∧ c ≤ 'z' then Char.ofNat (c.toNat - 32)
  else if c = 'œ' then 'Œ'   -- œ ↦ Œ
  else if c = 'ã' then 'Ã'
  else if c = 'ä' then 'Ä'
  else if c = 'å' then 'Å'
  else if c = 'ç' then 'Ç'
  else if c = 'ö' then 'Ö'
  else if c = 'ü' then 'Ü'
  else if c = 'ı' then 'I'        -- ı ↦ I (Python semantics)
  else if c = 'ğ' then 'Ğ'   -- ğ ↦ Ğ
  else if c = 'ş' then 'Ş'   -- ş ↦ Ş
  else if c = 'ÿ' then 'Ÿ'   -- ÿ ↦ Ÿ
  else if c = 'ž' then 'Ž'   -- ž ↦ Ž
  else c

/-- Python `str.lower` for one code point (list-valued, because Python maps
İ U+0130 to the two code points i U+0069, U+0307).  Covers the code points
occurring in the repository's tables and the analysed inputs; other code
points are left unchanged. -/
def pyLowerChars (c : Char) : List Char :=
  if 'A' ≤ c ∧ c ≤ 'Z' then [Char.ofNat (c.toNat + 32)]
  else if c = 'İ' then ['i', '̇']  -- İ ↦ i + combining dot above
  else if c = 'Œ' then ['œ']       -- Œ ↦ œ
  else if c = 'Ã' then ['ã']
  else if c = 'Ä' then ['ä']
  else if c = 'Å' then ['å']
  else if c = 'Ç' then ['ç']
  else if c = 'Ö' then ['ö']
  else if c = 'Ü' then ['ü']
  else if c = 'Ğ' then ['ğ']
  else if c = 'Ş' then ['ş']
  else if c = 'Ÿ' then ['ÿ']
  else if c = 'Ž' then ['ž']
  else [c]

/-- Python `str.upper` over a whole string. -/
def pyUpperL (l : List Char) : List Char := l.map pyUpperChar

/-- Python `str.lower` over a whole string. -/
def pyLowerL (l : List Char) : List Char := (l.map pyLowerChars).flatten

/-- Python `str.isalpha` for one code point, on the repertoire used by the
repository's tables and the analysed inputs (ASCII letters plus the Latin-1 /
Latin-Extended letters that occur there); punctuation, digits, spaces and the
non-letter mojibake characters (‡ ° – § ± ¶ ¼) are not alphabetic. -/
def pyIsAlphaChar (c : Char) : Bool :=
  ('A' ≤ c && c ≤ 'Z') || ('a' ≤ c && c ≤ 'z') ||
  [ 'Ã', 'Ä', 'Å', 'Ç', 'Ö', 'Ü',
    'ã', 'ä', 'å', 'ç', 'ö', 'ü', 'ÿ',
    'İ', 'ı', 'Ğ', 'ğ', 'Ş', 'ş',
    'Œ', 'œ', 'Ÿ', 'Ž', 'ž' ].contains c

/-- Whether a code point is cased (used by Python `str.title` to find word
boundaries); on the repertoire used here this coincides with being a letter. -/
def pyIsCased (c : Char) : Bool := pyIsAlphaChar c

/-- Python titlecases the first character of each word; for every code point
used here the titlecase map coincides with the uppercase map. -/
def pyTitlecaseChar (c : Char) : Char := pyUpperChar c

/-- Python `str.strip()`: drop whitespace from both ends. -/
def pyStrip (l : List Char) : List Char :=
  ((l.dropWhile pyIsSpaceB).reverse.dropWhile pyIsSpaceB).reverse

/-- Worker for `collapseWs`; the flag records whether the previous character
was whitespace (in which case further whitespace is absorbed). -/
def collapseWsAux : Bool → List Char → List Char
  | _, [] => []
  | prev, c :: cs =>
    if pyIsSpaceB c then
      (if prev then collapseWsAux true cs else ' ' :: collapseWsAux true cs)
    else c :: collapseWsAux false cs

/-- Python `re.sub(r'\s+', ' ', s)`: every maximal whitespace run becomes one
space. -/
def collapseWs (l : List Char) : List Char := collapseWsAux false l

/-- Worker for `pySplitWs` with an accumulator for the current word
(in reverse). -/
def pySplitWsAux : List Char → List Char → List (List Char)
  | acc, [] => if acc.isEmpty then [] else [acc.reverse]
  | acc, c :: cs =>
    if pyIsSpaceB c then
      (if acc.isEmpty then pySplitWsAux [] cs else acc.reverse :: pySplitWsAux [] cs)
    else pySplitWsAux (c :: acc) cs

/-- Python `str.split()` with no argument: split on whitespace runs, never
producing empty words. -/
def pySplitWs (l : List Char) : List (List Char) := pySplitWsAux [] l

/-- Python `' '.join(ws)`. -/
def joinWords : List (List Char) → List Char
  | [] => []
  | [w] => w
  | w :: ws => w ++ ' ' :: joinWords ws

/-- Python `str.capitalize()`: titlecase the first character, lowercase the
rest. -/
def pyCapitalize : List Char → List Char
  | [] => []
  | c :: cs => pyTitlecaseChar c :: pyLowerL cs

/-- Worker for `pyTitle`; the flag records whether the previous character was
cased. -/
def pyTitleAux : Bool → List Char → List Char
  | _, [] => []
  | prev, c :: cs =>
    (if pyIsCased c then (if prev then pyLowerChars c else [pyTitlecaseChar c]) else [c])
      ++ pyTitleAux (pyIsCased c) cs

/-- Python `str.title()`: the first cased character of each word is
titlecased, every following cased character is lowercased. -/
def pyTitle (l : List Char) : List Char := pyTitleAux false l

/-- Python `s.split(':')[-1]`: the segment after the last colon (the whole
string when there is no colon). -/
def lastColonSegment (l : List Char) : List Char :=
  (l.reverse.takeWhile (fun c => c ≠ ':')).reverse

/-- Python slice `l[s:e]` (for `0 ≤ s ≤ e`, with clamping at the ends). -/
def sliceL (l : List Char) (s e : Nat) : List Char := (l.take e).drop s

/-- Does `hay` start with `pat`? -/
def startsWithL : List Char → List Char → Bool
  | _, [] => true
  | [], _ :: _ => false
  | c :: cs, p :: ps => c == p && startsWithL cs ps

/-- Python `pat in hay` (substring containment). -/
def containsSub : List Char → List Char → Bool
  | [], pat => pat.isEmpty
  | c :: cs, pat => startsWithL (c :: cs) pat || containsSub cs pat

/-- Worker for `pyFindI`: index of the first occurrence, offset by `i`. -/
def pyFindAux : List Char → List Char → Nat → Option Nat
  | [], pat, i => if pat.isEmpty then some i else none
  | c :: cs, pat, i =>
    if startsWithL (c :: cs) pat then some i else pyFindAux cs pat (i + 1)

/-- Python `hay.find(pat)`: index of the first occurrence, `-1` when absent. -/
def pyFindI (hay pat : List Char) : Int :=
  match pyFindAux hay pat 0 with
  | some n => (n : Int)
  | none => -1

/-- Predicate: `pat` occurs in `hay` at index `i`. -/
def OccursAt (hay pat : List Char) (i : Nat) : Prop :=
  startsWithL (List.drop i hay) pat = true

instance (hay pat : List Char) (i : Nat) : Decidable (OccursAt hay pat i) := by
  unfold OccursAt; infer_instance

/-! ## A small backtracking regex engine

Only the constructs used by the six patterns of `extract_patient_name` are
needed: character classes, concatenation, ordered alternation and greedy
repetition.  `runRE` returns the list of possible remaining suffixes in
Python's backtracking priority order (greedy repetition tries the longest
continuation first, alternation tries the left branch first), so taking the
head of the list reproduces the match Python's engine produces. -/

inductive RE where
  | eps : RE
  | cls : (Char → Bool) → RE
  | seq : RE → RE → RE
  | alt : RE → RE → RE
  | rep : RE → RE

/-- Greedy repetition loop: try one more iteration of `f` first (longest
match first), then stopping here.  Iterations that consume nothing are cut
off, and `fuel` bounds the number of iterations (`fuel = length of the
input` is always enough because every iteration consumes a character). -/
def repRun (f : List Char → List (List Char)) : Nat → List Char → List (List Char)
  | 0, cs => [cs]
  | fuel + 1, cs =>
    ((f cs).flatMap fun cs1 =>
      if cs1.length < cs.length then repRun f fuel cs1 else [cs1]) ++ [cs]

/-- All ways `r` can match a front segment of `cs`, as the list of remaining
suffixes, in backtracking priority order. -/
def runRE : RE → List Char → List (List Char)
  | .eps, cs => [cs]
  | .cls _, [] => []
  | .cls p, c :: cs => if p c then [cs] else []
  | .seq a b, cs => (runRE a cs).flatMap fun cs1 => runRE b cs1
  | .alt a b, cs => runRE a cs ++ runRE b cs
  | .rep r, cs => repRun (runRE r) cs.length cs

/-- Literal character sequence. -/
def reLit : List Char → RE
  | [] => .eps
  | c :: cs => .seq (.cls fun x => x == c) (reLit cs)

/-- Regex `r?` (greedy). -/
def reOpt (r : RE) : RE := .alt r .eps

/-- Regex `r+` (greedy). -/
def rePlus (r : RE) : RE := .seq r (.rep r)

/-- Sequence of a list of regexes. -/
def reSeqL : List RE → RE
  | [] => .eps
  | [r] => r
  | r :: rs => .seq r (reSeqL rs)

/-! ## The six patient-name regex patterns (app.py lines 242-251)

The source file's character classes are mojibake: after `A-Z` the "uppercase
class" contains the code points Ã U+00C3, ‡ U+2021, Ä U+00C4, ž U+017E, I,
° U+00B0, – U+2013, Å U+00C5, œ U+0153 (not the Turkish letters Ç Ğ İ Ö Ş Ü),
and the "lowercase class" after `a-z` contains Ã U+00C3, § U+00A7, Ä U+00C4,
Ÿ U+0178, ± U+00B1, ¶ U+00B6, Å U+00C5, ¼ U+00BC.  The lists below keep the
source's characters (duplicates included) exactly. -/

/-- The characters the source's `[A-ZÃ‡ÄžIÄ°Ã–ÅžÃœ...]` class lists after
`A-Z`, in source order. -/
def upperClassExtra : List Char :=
  ['Ã', '‡', 'Ä', 'ž', 'I', 'Ä', '°', 'Ã', '–', 'Å', 'ž', 'Ã', 'œ']

/-- The characters the source's `[a-zÃ§ÄŸÄ±Ã¶ÅŸÃ¼]` class lists after
`a-z`, in source order. -/
def lowerClassExtra : List Char :=
  ['Ã', '§', 'Ä', 'Ÿ', 'Ä', '±', 'Ã', '¶', 'Å', 'Ÿ', 'Ã', '¼']

/-- Membership in the "uppercase name" class, without `\s`. -/
def upperNameChar (c : Char) : Bool :=
  ('A' ≤ c && c ≤ 'Z') || upperClassExtra.contains c

/-- Membership in the group class `[A-Z...\s]` of the all-uppercase patterns. -/
def upperNameOrWs (c : Char) : Bool := upperNameChar c || pyIsSpaceB c

/-- Membership in the "lowercase name" class. -/
def lowerNameChar (c : Char) : Bool :=
  ('a' ≤ c && c ≤ 'z') || lowerClassExtra.contains c

/-- Regex `\s`. -/
def reWs : RE := .cls pyIsSpaceB

/-- Regex `\s*`. -/
def reWsStar : RE := .rep reWs

/-- Regex `\s+`. -/
def reWsPlus : RE := rePlus reWs

/-- Regex `[:\-]`. -/
def reSep : RE := .cls fun c => c == ':' || c == '-'

/-- Regex `I?`. -/
def reIOpt : RE := reOpt (.cls fun c => c == 'I')

/-- Regex `HASTA\s+ADI?\s+SOYADI?\s*[:\-]\s*` (the part before the capture group of
patterns 1 and 3). -/
def preHastaAdiSoyadi : RE :=
  reSeqL [reLit ("HASTA").data, reWsPlus, reLit ("AD").data, reIOpt, reWsPlus,
          reLit ("SOYAD").data, reIOpt, reWsStar, reSep, reWsStar]

/-- Regex `HASTA\s+ADI?\s*[:\-]\s*` (patterns 2 and 4). -/
def preHastaAdi : RE :=
  reSeqL [reLit ("HASTA").data, reWsPlus, reLit ("AD").data, reIOpt,
          reWsStar, reSep, reWsStar]

/-- Regex `PATIENT\s+NAME\s*[:\-]\s*` (pattern 5). -/
def prePatientName : RE :=
  reSeqL [reLit ("PATIENT").data, reWsPlus, reLit ("NAME").data,
          reWsStar, reSep, reWsStar]

/-- Regex `ADI?\s+SOYADI?\s*[:\-]\s*` (pattern 6). -/
def preAdiSoyadi : RE :=
  reSeqL [reLit ("AD").data, reIOpt, reWsPlus, reLit ("SOYAD").data, reIOpt,
          reWsStar, reSep, reWsStar]

/-- Capture group `([A-Z...\s]+)` of the all-uppercase patterns 1-2. -/
def grpUpper : RE := rePlus (.cls upperNameOrWs)

/-- One mixed-case word `[A-Z...][a-z...]+`. -/
def grpMixedWord : RE := .seq (.cls upperNameChar) (rePlus (.cls lowerNameChar))

/-- Capture group `([U][l]+(?:\s+[U][l]+)*)` of the mixed-case patterns 3-6. -/
def grpMixed : RE := .seq grpMixedWord (.rep (.seq reWsPlus grpMixedWord))

/-- The ordered pattern list of `extract_patient_name`, each split as
(part before the group, capture group); the group is the final element of
every pattern. -/
def patientPatterns : List (RE × RE) :=
  [ (preHastaAdiSoyadi, grpUpper),
    (preHastaAdi, grpUpper),
    (preHastaAdiSoyadi, grpMixed),
    (preHastaAdi, grpMixed),
    (prePatientName, grpMixed),
    (preAdiSoyadi, grpMixed) ]

/-- Match `pre` then `grp` at the start of `cs`, in backtracking priority
order; the first full success gives (length consumed by `pre`, length
consumed by `grp`), i.e. the extent of `match.group(1)`. -/
def matchPreGrp (pre grp : RE) (cs : List Char) : Option (Nat × Nat) :=
  ((runRE pre cs).flatMap fun cs1 =>
    (runRE grp cs1).map fun cs2 =>
      (cs.length - cs1.length, cs1.length - cs2.length)).head?

/-- Worker for `findIter`: scan the string left to right; after a match,
continue after its end (Python's `re.finditer` yields non-overlapping
matches).  A zero-width match cannot arise from the patterns used, but is
skipped for totality. -/
def findIterAux (pre grp : RE) : Nat → Nat → List Char → List (Nat × Nat)
  | 0, _, _ => []
  | fuel + 1, i, cs =>
    match matchPreGrp pre grp cs with
    | some pg =>
      if pg.1 + pg.2 = 0 then
        match cs with
        | [] => []
        | _ :: cs1 => findIterAux pre grp fuel (i + 1) cs1
      else
        (i + pg.1, i + pg.1 + pg.2) ::
          findIterAux pre grp fuel (i + pg.1 + pg.2) (List.drop (pg.1 + pg.2) cs)
    | none =>
      match cs with
      | [] => []
      | _ :: cs1 => findIterAux pre grp fuel (i + 1) cs1

/-- Python `re.finditer`, reporting the (start, end) offsets of capture group
1 of every match, left to right. -/
def findIter (pre grp : RE) (cs : List Char) : List (Nat × Nat) :=
  findIterAux pre grp (cs.length + 1) 0 cs

/-! ## Patient-name extraction (app.py `extract_patient_name`, lines 233-311) -/

/-- One candidate of `extract_patient_name` (`end` is a Lean keyword, so the
`end` offset is called `endPos`).  The source stores the confidences as the
float literals `0.9` / `0.8`; they are embedded as the exact rationals `mkRat 9 10`, `mkRat 4 5`. -/
structure Cand where
  name : String
  start : Nat
  endPos : Nat
  confidence : ℚ
  method : String
deriving DecidableEq

/-- The exclusion list `exclude_terms` (app.py lines 254-258), code point for
code point: the mojibake entries are MÃœDÃœR, DOÃ‡, SAÄžLIK, ÃœMÄ°T KANAY. -/
def excludeTerms : List (List Char) :=
  [ ("DOKTOR").data, ("DR").data, ("MÃœDÃœR").data, ("SORUMLU").data,
    ("HEKIM").data, ("UZMAN").data, ("PROF").data, ("DOÃ‡").data,
    ("SGK").data, ("HASTANE").data, ("KLINIK").data, ("MERKEZ").data,
    ("SAÄžLIK").data, ("TIP").data, ("UNIVERSITE").data,
    ("UMIT KANAY").data, ("ÃœMÄ°T KANAY").data ]

/-- The regex stage of `extract_patient_name`: run every pattern over the
upper-cased text, collect every match, normalize whitespace, drop candidates
containing an exclusion term or of length ≤ 3, and re-case the survivors word
by word with `str.capitalize` (confidence 0.9, method `pattern_matching`). -/
def regexCandidates (text : List Char) : List Cand :=
  let up := pyUpperL text
  patientPatterns.flatMap fun p =>
    (findIter p.1 p.2 up).filterMap fun g =>
      let name0 := pyStrip (sliceL up g.1 g.2)
      let name1 := pyStrip (collapseWs name0)
      let excluded := excludeTerms.any fun t => containsSub (pyUpperL name1) t
      if excluded = false ∧ 3 < name1.length then
        some ⟨String.mk (joinWords ((pySplitWs name1).map pyCapitalize)),
              g.1, g.2, mkRat 9 10, "pattern_matching"⟩
      else none

/-! ## The spaCy token matcher (app.py `_add_medical_patterns`, lines 72-121)

Tokenization is an external capability of the statistical pipeline; a token
is embedded as its text plus its character offsets, and the claims quantify
over token lists. -/

/-- A spaCy token: its text and `start_char` / `end_char` offsets. -/
structure Tok where
  text : List Char
  startChar : Nat
  endChar : Nat
deriving DecidableEq

/-- One token-level predicate of a matcher pattern: `LOWER` equality,
`IS_ALPHA` alone, `IS_ALPHA` with a minimum `LENGTH`, a `.` / `:` literal via
`LOWER`, or the `TEXT`-`REGEX` spec (which `re.search`es the token text for
`n` consecutive digits). -/
inductive TokSpec where
  | lowerIs : List Char → TokSpec
  | isAlphaTok : TokSpec
  | isAlphaMinLen : Nat → TokSpec
  | textHasDigitRun : Nat → TokSpec

/-- Whether `n` consecutive digits occur somewhere in `l`. -/
def hasDigitRun (l : List Char) (n : Nat) : Bool :=
  containsSubPred l n fun c => '0' ≤ c && c ≤ '9'
where
  /-- some window of `n` consecutive characters all satisfy `p`. -/
  containsSubPred (l : List Char) (n : Nat) (p : Char → Bool) : Bool :=
    ((List.range (l.length + 1)).any fun i => ((l.drop i).take n).length = n && ((l.drop i).take n).all p)

/-- Does one token satisfy one spec?  (`LOWER` is Python
`token.text.lower()`, `IS_ALPHA` is Python `str.isalpha`: non-empty and all
alphabetic.) -/
def tokMatches : TokSpec → Tok → Bool
  | .lowerIs s, t => pyLowerL t.text == s
  | .isAlphaTok, t => !t.text.isEmpty && t.text.all pyIsAlphaChar
  | .isAlphaMinLen n, t => (!t.text.isEmpty && t.text.all pyIsAlphaChar) && n ≤ t.text.length
  | .textHasDigitRun n, t => hasDigitRun t.text n

/-- The PATIENT_NAME pattern group (app.py lines 103-109); the second and
fourth variants use the mojibake tokens `adÄ±` / `soyadÄ±` exactly as in the
source. -/
def patientTokPatterns : List (List TokSpec) :=
  [ [.lowerIs ("hasta").data, .lowerIs ("adi").data, .lowerIs ("soyadi").data,
     .lowerIs (":").data, .isAlphaMinLen 2],
    [.lowerIs ("hasta").data, .lowerIs ("adÄ±").data, .lowerIs ("soyadÄ±").data,
     .lowerIs (":").data, .isAlphaMinLen 2],
    [.lowerIs ("hasta").data, .lowerIs ("adi").data, .lowerIs (":").data, .isAlphaMinLen 2],
    [.lowerIs ("hasta").data, .lowerIs ("adÄ±").data, .lowerIs (":").data, .isAlphaMinLen 2],
    [.lowerIs ("patient").data, .lowerIs ("name").data, .lowerIs (":").data, .isAlphaMinLen 2] ]

/-- The full pattern table registered on the matcher, in registration order
(app.py lines 79-119); all token strings are the source's literals. -/
def matcherTable : List (String × List (List TokSpec)) :=
  [ ("TC_NUMBER", [[.textHasDigitRun 11]]),
    ("MEDICAL_DEVICE",
      [ [.lowerIs ("iÅŸitme").data, .lowerIs ("cihazÄ±").data],
        [.lowerIs ("hearing").data, .lowerIs ("aid").data],
        [.lowerIs ("koklear").data, .lowerIs ("implant").data],
        [.lowerIs ("cochlear").data, .lowerIs ("implant").data] ]),
    ("MEDICAL_CONDITION",
      [ [.lowerIs ("iÅŸitme").data, .lowerIs ("kaybÄ±").data],
        [.lowerIs ("hearing").data, .lowerIs ("loss").data],
        [.lowerIs ("saÄŸÄ±rlÄ±k").data],
        [.lowerIs ("tinnitus").data],
        [.lowerIs ("vertigo").data] ]),
    ("PATIENT_NAME", patientTokPatterns),
    ("DOCTOR_STAFF",
      [ [.lowerIs ("dr").data, .lowerIs (".").data, .isAlphaTok],
        [.lowerIs ("doktor").data, .isAlphaTok],
        [.lowerIs ("mÃ¼dÃ¼r").data, .isAlphaTok],
        [.lowerIs ("sorumlu").data, .isAlphaTok] ]) ]

/-- Does a pattern match the tokens at the front of `ts`, one spec per
consecutive token? -/
def tokListMatches : List TokSpec → List Tok → Bool
  | [], _ => true
  | _ :: _, [] => false
  | s :: ss, t :: ts => tokMatches s t && tokListMatches ss ts

/-- All (start, end) token-index spans at which some PATIENT_NAME pattern
variant matches, scanning token positions left to right. -/
def spacyPatientMatches (toks : List Tok) : List (Nat × Nat) :=
  (List.range (toks.length + 1)).flatMap fun i =>
    patientTokPatterns.filterMap fun p =>
      if tokListMatches p (toks.drop i) then some (i, i + p.length) else none

/-- The fallback stage of `extract_patient_name` (app.py lines 288-305):
for each PATIENT_NAME matcher span, take the span's text
(`text[start_char:end_char]`), keep what follows the last colon, strip it,
and accept it if non-empty and longer than 3 characters; the accepted name is
`str.title`-cased, confidence 0.8, method `spacy_matching`. -/
def fallbackCandidates (text : List Char) (toks : List Tok) : List Cand :=
  spacyPatientMatches toks |>.filterMap fun se =>
    let sc := (toks.getD se.1 ⟨[], 0, 0⟩).startChar
    let ec := (toks.getD (se.2 - 1) ⟨[], 0, 0⟩).endChar
    let np := pyStrip (lastColonSegment (sliceL text sc ec))
    if np ≠ [] ∧ 3 < np.length then
      some ⟨String.mk (pyTitle np), sc, ec, mkRat 4 5, "spacy_matching"⟩
    else none

/-- The candidate pool `found_names` at the point of selection: the regex
candidates, or — exactly when there are none — the matcher fallback
candidates. -/
def candidatePool (text : List Char) (toks : List Tok) : List Cand :=
  let found := regexCandidates text
  if found = [] then fallbackCandidates text toks else found

/-- One step of Python `max` with a key: the current best is replaced only
when the new element's key is strictly larger, so among equal keys the
earliest element survives. -/
def maxStep (b y : Cand) : Cand := if b.confidence < y.confidence then y else b

/-- Python `max(found_names, key=lambda x: x['confidence'])` on a non-empty
list: scan left to right with `maxStep`, so the earliest maximal element
wins. -/
def pyMaxCand : List Cand → Option Cand
  | [] => none
  | c :: cs => some (cs.foldl maxStep c)

/-- Embedding of `extract_patient_name` (app.py lines 233-311), as a function of the text
and of the tokenization the opaque statistical pipeline produces for it:
the best candidate of the pool, or `none` when the pool is empty. -/
def extract_patient_name (text : List Char) (toks : List Tok) : Option Cand :=
  pyMaxCand (candidatePool text toks)

/-! ## Medical term dictionary (app.py `_load_medical_terms` and
`_extract_medical_terms`, lines 123-140 and 216-231) -/

/-- One reported term hit.  The source stores `start` as the result of
`str.find` (an `int` that would be `-1` were the term absent), so the offsets
are embedded as integers. -/
structure MedicalTermHit where
  term : String
  category : String
  start : Int
  endPos : Int
deriving DecidableEq

/-- Embedding of `self.medical_terms` (app.py lines 125-140), code point for code point
(the Turkish entries are mojibake in the source, e.g. `iÅŸitme kaybÄ±`). -/
def medical_terms_table : List (String × List String) :=
  [ ("hearing_conditions",
      [ "iÅŸitme kaybÄ±", "iÅŸitme azalmasÄ±", "saÄŸÄ±rlÄ±k", "hearing loss",
        "sensÃ¶rinÃ¶ral iÅŸitme kaybÄ±", "iletim tipi iÅŸitme kaybÄ±",
        "karma tip iÅŸitme kaybÄ±", "presbykÃ¼zi", "ototoksisite" ]),
    ("devices",
      [ "iÅŸitme cihazÄ±", "hearing aid", "iÅŸitme aleti",
        "BTE", "ITE", "CIC", "RIC", "kulak arkasÄ± cihaz",
        "kulak iÃ§i cihaz", "koklear implant", "cochlear implant" ]),
    ("procedures",
      [ "odyometri", "audiometry", "iÅŸitme testi",
        "timpanometri", "ABR", "ameliyat", "surgery" ]) ]

/-- Embedding of `_extract_medical_terms` (app.py lines 216-231): iterate the category →
terms table in order; for each term whose lowercase form is a substring of
the lowercase text, report one hit at the first occurrence, with
`end = start + len(term)`. -/
def extract_medical_terms (table : List (String × List String)) (text : List Char) :
    List MedicalTermHit :=
  let tl := pyLowerL text
  table.flatMap fun ct =>
    ct.2.filterMap fun term =>
      if containsSub tl (pyLowerL term.data) = true then
        some ⟨term, ct.1, pyFindI tl (pyLowerL term.data),
              pyFindI tl (pyLowerL term.data) + (term.data.length : Int)⟩
      else none

/-! ## Document classification (app.py `_classify_document`, lines 200-214) -/

/-- Keywords of classification rule 1 (`sgk_device_report`); the second entry
is the source's mojibake `sosyal gÃ¼venlik`. -/
def sgkKeys : List String := ["sgk", "sosyal gÃ¼venlik", "cihaz raporu"]

/-- Keywords of rule 2 (`prescription`); mojibake `reÃ§ete`, `ilaÃ§`. -/
def prescriptionKeys : List String := ["reÃ§ete", "prescription", "ilaÃ§"]

/-- Keywords of rule 3 (`audiometry_report`); mojibake `iÅŸitme testi`. -/
def audiometryKeys : List String := ["odyometri", "audiometry", "iÅŸitme testi"]

/-- Keywords of rule 4 (`medical_report`). -/
def reportKeys : List String := ["rapor", "muayene", "bulgular"]

/-- Embedding of `_classify_document`: the first rule one of whose keywords is a substring
of the lower-cased text decides the type and its fixed confidence
(0.95 / 0.90 / 0.88 / 0.75, else `other` with 0.50). -/
def classify_document (text : List Char) : String × ℚ :=
  let tl := pyLowerL text
  if sgkKeys.any fun k => containsSub tl k.data then ("sgk_device_report", mkRat 19 20)
  else if prescriptionKeys.any fun k => containsSub tl k.data then ("prescription", mkRat 9 10)
  else if audiometryKeys.any fun k => containsSub tl k.data then ("audiometry_report", mkRat 22 25)
  else if reportKeys.any fun k => containsSub tl k.data then ("medical_report", mkRat 3 4)
  else ("other", mkRat 1 2)

/-! ## HTTP route guards (app.py lines 360-469)

The routes read the `text` field(s) of the JSON body with
`data.get('text', '')` and reject empty text with a 400 response before any
extraction runs.  A route is embedded as a function of the optional field
value(s) and of the handler it would invoke on success, so a `badRequest`
result shows the handler was never applied. -/

/-- Outcome of a route: a 400 rejection with the source's message, or the
handler's result. -/
inductive RouteResp (α : Type) where
  | badRequest : String → RouteResp α
  | ok : α → RouteResp α
deriving DecidableEq

/-- The `/process` guard (app.py lines 364-371): `text = data.get('text', '')`;
empty text gives 400 "No text provided". -/
def process_route {α : Type} (handler : List Char → α) (textField : Option String) :
    RouteResp α :=
  let text := (textField.getD "").data
  if text = [] then .badRequest "No text provided" else .ok (handler text)

/-- The `/similarity` guard (app.py lines 391-398): rejects when either text is
empty or absent, with 400 "Both texts required". -/
def similarity_route {α : Type} (handler : List Char → List Char → α)
    (t1 t2 : Option String) : RouteResp α :=
  let x1 := (t1.getD "").data
  let x2 := (t2.getD "").data
  if x1 = [] ∨ x2 = [] then .badRequest "Both texts required"
  else .ok (handler x1 x2)

/-- The `/extract_patient` guard (app.py lines 448-455). -/
def extract_patient_route {α : Type} (handler : List Char → α) (textField : Option String) :
    RouteResp α :=
  let text := (textField.getD "").data
  if text = [] then .badRequest "No text provided" else .ok (handler text)

/-! ## Service initialization (app.py `TurkishMedicalNLP.initialize`,
lines 26-70)

Model loading is an external effect; it is embedded as a predicate saying
which of the five model names would load.  `spacy.load` signals an
unavailable model with `OSError`, which the loop catches and skips; when no
model loads, the `else` branch builds a blank Turkish pipeline with only a
sentencizer. -/

/-- The pipeline the service ends up with. -/
inductive Pipeline where
  | statistical : String → Pipeline
  | blankWithSentencizer : Pipeline
deriving DecidableEq

/-- The list `models_to_try` (app.py lines 30-36), in order of preference. -/
def modelsToTry : List String :=
  ["tr_core_news_lg", "tr_core_news_md", "tr_core_news_sm",
   "xx_ent_wiki_sm", "en_core_web_sm"]

/-- The model-selection loop: the first loadable name wins; if none loads,
the blank sentencizer-only pipeline is built. -/
def loadPipeline (loadable : String → Bool) : Pipeline :=
  match modelsToTry.find? loadable with
  | some m => .statistical m
  | none => .blankWithSentencizer

/-- The mutable state of `TurkishMedicalNLP`: the loaded pipeline, the
matcher's registered pattern table, the term dictionary, and the
`initialized` flag. -/
structure ServiceState where
  nlp : Option Pipeline
  matcherPatterns : List (String × List (List TokSpec))
  medicalTerms : List (String × List String)
  initialized : Bool

/-- Embedding of `TurkishMedicalNLP.initialize` (app.py lines 26-70): select a pipeline,
register the matcher patterns, load the term dictionary and set
`initialized`; every field of the prior state is overwritten. -/
def initService (loadable : String → Bool) (_s : ServiceState) : ServiceState :=
  { nlp := some (loadPipeline loadable),
    matcherPatterns := matcherTable,
    medicalTerms := medical_terms_table,
    initialized := true }

/-! ## Concrete documents and tokenizations used by the witnesses

The two spec inputs are written with the exact code points of the claims:
the C4 input contains the mojibake pair Ã U+00C3, œ U+0153 followed by the
real İ U+0130, and the C8 input contains the real Ğ U+011E. -/

/-- The C8 input `HASTA ADI SOYADI: ONUR AYDOĞDU` (Ğ is U+011E). -/
def docOnur : List Char := ("HASTA ADI SOYADI: ONUR AYDOĞDU").data

/-- The C4 input `HASTA ADI SOYADI: ÃœMİT KANAY` (Ã U+00C3, œ U+0153,
İ U+0130). -/
def docUmit : List Char := ("HASTA ADI SOYADI: ÃœMİT KANAY").data

/-- A natural tokenization of `docUmit` (token texts with their character
offsets). -/
def toksUmit : List Tok :=
  [ ⟨("HASTA").data, 0, 5⟩, ⟨("ADI").data, 6, 9⟩, ⟨("SOYADI").data, 10, 16⟩,
    ⟨(":").data, 16, 17⟩, ⟨("ÃœMİT").data, 18, 23⟩,
    ⟨("KANAY").data, 24, 29⟩ ]

/-- A document whose regex stage survives nothing (the captured `ABC` stops
at Ğ U+011E, which the mojibake class does not contain, and has length ≤ 3)
while the token matcher still matches. -/
def docAbc : List Char := ("HASTA ADI SOYADI: ABCĞ").data

/-- A natural tokenization of `docAbc`. -/
def toksAbc : List Tok :=
  [ ⟨("HASTA").data, 0, 5⟩, ⟨("ADI").data, 6, 9⟩, ⟨("SOYADI").data, 10, 16⟩,
    ⟨(":").data, 16, 17⟩, ⟨("ABCĞ").data, 18, 22⟩ ]

/-- An ASCII document on which the regex stage finds one candidate. -/
def docMehmet : List Char := ("HASTA ADI SOYADI: MEHMET YILMAZ").data

/-! ## Lemmas about the string primitives -/

theorem startsWithL_iff_take (p l : List Char) :
    startsWithL l p = true ↔ l.take p.length = p := by
  induction p generalizing l with
  | nil => simp [startsWithL]
  | cons q qs ih =>
    cases l with
    | nil => simp [startsWithL]
    | cons c cs =>
      simp [startsWithL, List.take_succ_cons, ih, and_comm]

theorem occursAt_iff_take (hay pat : List Char) (i : Nat) :
    OccursAt hay pat i ↔ (hay.drop i).take pat.length = pat := by
  unfold OccursAt
  exact startsWithL_iff_take pat (hay.drop i)

theorem containsSub_iff_occurs (hay pat : List Char) :
    containsSub hay pat = true ↔ ∃ i, OccursAt hay pat i := by
  induction hay with
  | nil =>
    constructor
    · intro h
      refine ⟨0, ?_⟩
      unfold containsSub at h
      unfold OccursAt
      cases pat with
      | nil => simp [startsWithL]
      | cons p ps => simp at h
    · rintro ⟨i, hi⟩
      unfold OccursAt at hi
      unfold containsSub
      cases pat with
      | nil => simp
      | cons p ps => simp [startsWithL] at hi
  | cons c cs ih =>
    unfold containsSub
    constructor
    · intro h
      rcases Bool.or_eq_true_iff.mp h with h1 | h2
      · exact ⟨0, h1⟩
      · obtain ⟨i, hi⟩ := ih.mp h2
        exact ⟨i + 1, hi⟩
    · rintro ⟨i, hi⟩
      cases i with
      | zero => exact Bool.or_eq_true_iff.mpr (Or.inl hi)
      | succ j => exact Bool.or_eq_true_iff.mpr (Or.inr (ih.mpr ⟨j, hi⟩))

theorem pyFindAux_shift (hay pat : List Char) (i : Nat) :
    pyFindAux hay pat i = (pyFindAux hay pat 0).map (fun n => n + i) := by
  induction hay generalizing i with
  | nil =>
    unfold pyFindAux
    split <;> simp
  | cons c cs ih =>
    unfold pyFindAux
    split
    · simp
    · rw [ih (i + 1), ih 1, Option.map_map]
      rcases pyFindAux cs pat 0 with _ | n
      · simp
      · simp [Function.comp]
        omega

theorem pyFindAux_zero_spec (hay pat : List Char) (n : Nat)
    (h : pyFindAux hay pat 0 = some n) :
    OccursAt hay pat n ∧ ∀ m, m < n → ¬ OccursAt hay pat m := by
  induction hay generalizing n with
  | nil =>
    unfold pyFindAux at h
    split at h
    · rename_i hemp
      cases h
      refine ⟨?_, by omega⟩
      unfold OccursAt
      cases pat with
      | nil => simp [startsWithL]
      | cons p ps => simp at hemp
    · cases h
  | cons c cs ih =>
    unfold pyFindAux at h
    split at h
    · rename_i hsw
      cases h
      exact ⟨hsw, by omega⟩
    · rename_i hsw
      rw [pyFindAux_shift cs pat 1] at h
      rcases hk : pyFindAux cs pat 0 with _ | k
      · rw [hk] at h; cases h
      · rw [hk] at h
        simp at h
        obtain ⟨hocc, hmin⟩ := ih k hk
        refine ⟨?_, ?_⟩
        · unfold OccursAt
          rw [← h]
          simpa [List.drop_succ_cons] using hocc
        · intro m hm
          cases m with
          | zero =>
            unfold OccursAt
            simpa using hsw
          | succ j =>
            unfold OccursAt
            rw [List.drop_succ_cons]
            exact hmin j (by omega)

theorem pyFindAux_isSome_of_contains (hay pat : List Char)
    (h : containsSub hay pat = true) :
    ∃ n, pyFindAux hay pat 0 = some n := by
  induction hay with
  | nil =>
    unfold containsSub at h
    unfold pyFindAux
    exact ⟨0, by simp [h]⟩
  | cons c cs ih =>
    unfold containsSub at h
    unfold pyFindAux
    rcases Bool.or_eq_true_iff.mp h with h1 | h2
    · exact ⟨0, by simp [h1]⟩
    · obtain ⟨k, hk⟩ := ih h2
      split
      · exact ⟨0, rfl⟩
      · rw [pyFindAux_shift cs pat 1, hk]
        exact ⟨k + 1, rfl⟩

/-- Python `str.find` at a successful lookup: the result is the least occurrence
index (and in particular non-negative). -/
theorem pyFindI_spec (hay pat : List Char)
    (h : containsSub hay pat = true) :
    ∃ n : Nat, pyFindI hay pat = (n : Int) ∧ OccursAt hay pat n ∧
      ∀ m, m < n → ¬ OccursAt hay pat m := by
  obtain ⟨n, hn⟩ := pyFindAux_isSome_of_contains hay pat h
  obtain ⟨hocc, hmin⟩ := pyFindAux_zero_spec hay pat n hn
  exact ⟨n, by unfold pyFindI; rw [hn], hocc, hmin⟩

/-! ## Character-provenance lemmas (every character of a processed name comes
from the input text) -/

theorem mem_of_mem_sliceL {l : List Char} {s e : Nat} {c : Char}
    (h : c ∈ sliceL l s e) : c ∈ l := by
  unfold sliceL at h
  exact (List.take_sublist e l).subset ((List.drop_sublist s (l.take e)).subset h)

theorem mem_of_mem_pyStrip {l : List Char} {c : Char}
    (h : c ∈ pyStrip l) : c ∈ l := by
  unfold pyStrip at h
  rw [List.mem_reverse] at h
  have h1 := (List.dropWhile_sublist (l := (l.dropWhile pyIsSpaceB).reverse)
    (p := pyIsSpaceB)).subset h
  rw [List.mem_reverse] at h1
  exact (List.dropWhile_sublist (l := l) (p := pyIsSpaceB)).subset h1

theorem mem_of_mem_lastColonSegment {l : List Char} {c : Char}
    (h : c ∈ lastColonSegment l) : c ∈ l := by
  unfold lastColonSegment at h
  rw [List.mem_reverse] at h
  have h1 := (List.takeWhile_sublist (l := l.reverse)
    (p := fun c => decide (c ≠ ':'))).subset h
  rwa [List.mem_reverse] at h1

theorem mem_pyTitleAux {b : Bool} {l : List Char} {c : Char}
    (h : c ∈ pyTitleAux b l) :
    ∃ c0 ∈ l, c = pyTitlecaseChar c0 ∨ c ∈ pyLowerChars c0 ∨ c = c0 := by
  induction l generalizing b with
  | nil => simp [pyTitleAux] at h
  | cons d ds ih =>
    unfold pyTitleAux at h
    rw [List.mem_append] at h
    rcases h with h | h
    · refine ⟨d, by simp, ?_⟩
      split at h
      · split at h
        · exact Or.inr (Or.inl h)
        · simp at h
          exact Or.inl h
      · simp at h
        exact Or.inr (Or.inr h)
    · obtain ⟨c0, hc0, hcase⟩ := ih h
      exact ⟨c0, by simp [hc0], hcase⟩

/-! ## Lemmas about the Python `max` selection -/

theorem foldlMax_spec (xs : List Cand) (x : Cand) :
    ∃ l1 l2, x :: xs = l1 ++ (xs.foldl maxStep x) :: l2
      ∧ (∀ d ∈ l1, d.confidence < (xs.foldl maxStep x).confidence)
      ∧ (∀ d ∈ x :: xs, d.confidence ≤ (xs.foldl maxStep x).confidence) := by
  induction xs generalizing x with
  | nil => exact ⟨[], [], rfl, by simp, by simp⟩
  | cons y ys ih =>
    rw [List.foldl_cons]
    by_cases hxy : x.confidence < y.confidence
    · have hstep : maxStep x y = y := by simp [maxStep, hxy]
      rw [hstep]
      obtain ⟨l1, l2, hsplit, hlt, hle⟩ := ih y
      refine ⟨x :: l1, l2, ?_, ?_, ?_⟩
      · rw [List.cons_append, ← hsplit]
      · intro e he
        rcases List.mem_cons.mp he with rfl | he
        · exact lt_of_lt_of_le hxy (hle y (by simp))
        · exact hlt e he
      · intro e he
        rcases List.mem_cons.mp he with rfl | he
        · exact le_of_lt (lt_of_lt_of_le hxy (hle y (by simp)))
        · exact hle e he
    · have hstep : maxStep x y = x := by simp [maxStep, hxy]
      rw [hstep]
      obtain ⟨l1, l2, hsplit, hlt, hle⟩ := ih x
      cases l1 with
      | nil =>
        simp only [List.nil_append] at hsplit
        have h1 : ys.foldl maxStep x = x := by
          injection hsplit with ha _
          exact ha.symm
        refine ⟨[], y :: ys, ?_, by simp, ?_⟩
        · rw [h1]
          rfl
        · intro e he
          rw [h1]
          rcases List.mem_cons.mp he with rfl | he
          · exact le_refl _
          rcases List.mem_cons.mp he with rfl | he
          · exact le_of_not_lt hxy
          · have h2 := hle e (List.mem_cons_of_mem x he)
            rwa [h1] at h2
      | cons a l1' =>
        rw [List.cons_append] at hsplit
        injection hsplit with ha htail
        rw [← ha] at hlt
        refine ⟨x :: y :: l1', l2, ?_, ?_, ?_⟩
        · rw [List.cons_append, List.cons_append, ← htail]
        · intro e he
          have hxm : x.confidence < (ys.foldl maxStep x).confidence := hlt x (by simp)
          rcases List.mem_cons.mp he with rfl | he
          · exact hxm
          rcases List.mem_cons.mp he with rfl | he
          · exact lt_of_le_of_lt (le_of_not_lt hxy) hxm
          · exact hlt e (by simp [he])
        · intro e he
          rcases List.mem_cons.mp he with rfl | he
          · exact hle e (by simp)
          rcases List.mem_cons.mp he with rfl | he
          · exact le_trans (le_of_not_lt hxy) (hle x (by simp))
          · exact hle e (List.mem_cons_of_mem x he)

theorem pyMaxCand_eq_some {l : List Cand} {c : Cand} (h : pyMaxCand l = some c) :
    ∃ l1 l2, l = l1 ++ c :: l2
      ∧ (∀ d ∈ l1, d.confidence < c.confidence)
      ∧ (∀ d ∈ l, d.confidence ≤ c.confidence) := by
  cases l with
  | nil => cases h
  | cons x xs =>
    unfold pyMaxCand at h
    injection h with h
    obtain ⟨l1, l2, hsplit, hlt, hle⟩ := foldlMax_spec xs x
    rw [h] at hsplit hlt hle
    exact ⟨l1, l2, hsplit, hlt, hle⟩

theorem pyMaxCand_mem {l : List Cand} {c : Cand} (h : pyMaxCand l = some c) :
    c ∈ l := by
  obtain ⟨l1, l2, hsplit, -, -⟩ := pyMaxCand_eq_some h
  rw [hsplit]
  simp

theorem pyMaxCand_eq_none {l : List Cand} : pyMaxCand l = none ↔ l = [] := by
  cases l <;> simp [pyMaxCand]

/-! ## Shape lemmas for the two candidate pools -/

theorem fallbackCandidates_mem {text : List Char} {toks : List Tok} {c : Cand}
    (h : c ∈ fallbackCandidates text toks) :
    c.confidence = mkRat 4 5 ∧ c.method = "spacy_matching" ∧
    ∃ s e, c.name =
      String.mk (pyTitle (pyStrip (lastColonSegment (sliceL text s e)))) := by
  unfold fallbackCandidates at h
  obtain ⟨se, _, hc⟩ := List.mem_filterMap.mp h
  dsimp only at hc
  split at hc
  · injection hc with hc
    subst hc
    exact ⟨rfl, rfl, _, _, rfl⟩
  · cases hc

theorem regexCandidates_mem {text : List Char} {c : Cand}
    (h : c ∈ regexCandidates text) :
    c.confidence = mkRat 9 10 ∧ c.method = "pattern_matching" := by
  unfold regexCandidates at h
  obtain ⟨p, _, hp⟩ := List.mem_flatMap.mp h
  obtain ⟨g, _, hc⟩ := List.mem_filterMap.mp hp
  dsimp only at hc
  split at hc
  · injection hc with hc
    subst hc
    exact ⟨rfl, rfl⟩
  · cases hc

theorem candidatePool_of_regex_empty {text : List Char} {toks : List Tok}
    (h : regexCandidates text = []) :
    candidatePool text toks = fallbackCandidates text toks := by
  unfold candidatePool
  rw [h]
  rfl

/-! ## Lemmas about the term dictionary scan -/

theorem extract_pairs_per_cat (cat : String) (ts : List String) (tl : List Char) :
    ((ts.filterMap fun term =>
        if containsSub tl (pyLowerL term.data) = true then
          some (⟨term, cat, pyFindI tl (pyLowerL term.data),
                pyFindI tl (pyLowerL term.data) + (term.data.length : Int)⟩ : MedicalTermHit)
        else none).map fun h => (h.category, h.term)) =
      (ts.map fun t => (cat, t)).filter fun p => containsSub tl (pyLowerL p.2.data) := by
  induction ts with
  | nil => rfl
  | cons t ts ih =>
    by_cases hc : containsSub tl (pyLowerL t.data) = true
    · simp [List.filterMap_cons, List.filter_cons, hc]
      simpa using ih
    · simp [List.filterMap_cons, List.filter_cons, hc]
      simpa using ih

theorem extract_terms_pairs_eq (table : List (String × List String)) (text : List Char) :
    ((extract_medical_terms table text).map fun h => (h.category, h.term)) =
      (table.flatMap fun ct => ct.2.map fun t => (ct.1, t)).filter
        (fun p => containsSub (pyLowerL text) (pyLowerL p.2.data)) := by
  induction table with
  | nil => rfl
  | cons ct cts ih =>
    simp only [extract_medical_terms, List.flatMap_cons, List.map_append,
      List.filter_append] at ih ⊢
    rw [extract_pairs_per_cat, ih]

theorem length_filter_term (l : List MedicalTermHit) (t : String) :
    (l.filter fun h => h.term == t).length = ((l.map fun h => h.term).count t) := by
  induction l with
  | nil => rfl
  | cons h l ih =>
    by_cases hb : (h.term == t) = true
    · simp [List.filter_cons, List.count_cons, hb, ih]
    · simp [List.filter_cons, List.count_cons, hb, ih]

/-- The flattened dictionary has pairwise distinct term strings, so a term
can be reported at most once. -/
theorem dict_terms_nodup :
    ((medical_terms_table.flatMap fun ct => ct.2.map fun t => (ct.1, t)).map
      Prod.snd).Nodup := by decide

/-! ## Claim theorems -/

/-- Claim C1, counterexample: on the document `HASTA ADI SOYADI: ABCĞ` with
its natural tokenization, the regex stage survives nothing while the
PATIENT_NAME token pattern matches a span whose post-colon name part has
length 4 > 3, and the returned result carries method tag `spacy_matching`
(the literal in app.py line 304) — not `model_matching` as the claim
states. -/
theorem c1_counterexample :
    regexCandidates docAbc = [] ∧
    fallbackCandidates docAbc toksAbc ≠ [] ∧
    extract_patient_name docAbc toksAbc =
      some ⟨"Abcğ", 0, 22, mkRat 4 5, "spacy_matching"⟩ ∧
    ("spacy_matching" : String) ≠ "model_matching" := by
  exact ⟨by decide, by decide, by decide, by decide⟩

/-- Claim C1 (amended): whenever the regex stage of `extract_patient_name`
yields zero surviving candidates and the PATIENT_NAME token matcher yields at
least one surviving span (post-colon name part non-empty and longer than 3),
the returned result carries method tag `spacy_matching` and confidence
exactly 0.8. -/
theorem c1_fallback_method_and_confidence (text : List Char) (toks : List Tok)
    (h1 : regexCandidates text = [])
    (h2 : fallbackCandidates text toks ≠ []) :
    ∃ c, extract_patient_name text toks = some c ∧
      c.confidence = mkRat 4 5 ∧ c.method = "spacy_matching" := by
  unfold extract_patient_name
  rw [candidatePool_of_regex_empty h1]
  rcases hfb : fallbackCandidates text toks with _ | ⟨c0, cs⟩
  · exact absurd hfb h2
  · refine ⟨cs.foldl maxStep c0, rfl, ?_, ?_⟩
    · exact (fallbackCandidates_mem (hfb ▸ pyMaxCand_mem (l := c0 :: cs) rfl)).1
    · exact (fallbackCandidates_mem (hfb ▸ pyMaxCand_mem (l := c0 :: cs) rfl)).2.1

/-- Witness for C1 (amended) at the concrete document `docAbc`. -/
theorem c1_fallback_method_and_confidence_witness :
    ∃ c, extract_patient_name docAbc toksAbc = some c ∧
      c.confidence = mkRat 4 5 ∧ c.method = "spacy_matching" :=
  c1_fallback_method_and_confidence docAbc toksAbc (by decide) (by decide)

/-- Claim C4: on the input `HASTA ADI SOYADI: ÃœMİT KANAY` (the spec's exact
code points), `extract_patient_name` — for every tokenization the opaque
pipeline may produce — returns no result or a result whose name is not
`Ümit Kanay`: the letter Ü cannot arise from any character of this document
under Python's title-casing. -/
theorem c4_umit_never_returned (toks : List Tok) (c : Cand)
    (h : extract_patient_name docUmit toks = some c) :
    c.name ≠ "Ümit Kanay" := by
  have hreg : regexCandidates docUmit = [] := by decide
  unfold extract_patient_name at h
  rw [candidatePool_of_regex_empty hreg] at h
  obtain ⟨-, -, s, e, hname⟩ := fallbackCandidates_mem (pyMaxCand_mem h)
  intro hEq
  rw [hEq] at hname
  have hdata : ("Ümit Kanay").data =
      pyTitle (pyStrip (lastColonSegment (sliceL docUmit s e))) :=
    congrArg String.data hname
  have hU : 'Ü' ∈ pyTitle (pyStrip (lastColonSegment (sliceL docUmit s e))) := by
    rw [← hdata]
    decide
  unfold pyTitle at hU
  obtain ⟨c0, hc0mem, hcase⟩ := mem_pyTitleAux hU
  have hc0 : c0 ∈ docUmit :=
    mem_of_mem_sliceL (mem_of_mem_lastColonSegment (mem_of_mem_pyStrip hc0mem))
  have hforall : ∀ d ∈ docUmit,
      ¬('Ü' = pyTitlecaseChar d ∨ 'Ü' ∈ pyLowerChars d ∨ 'Ü' = d) := by decide
  exact hforall c0 hc0 hcase

/-- Witness for C4: with the natural tokenization the fallback does return a
result, and its name (`Ãœmi̇t`, from Python title-casing of the mojibake
span) is not `Ümit Kanay`. -/
theorem c4_umit_never_returned_witness :
    ∃ c, extract_patient_name docUmit toksUmit = some c ∧ c.name ≠ "Ümit Kanay" :=
  ⟨⟨"Ãœmi̇t", 0, 23, mkRat 4 5, "spacy_matching"⟩, by decide,
    c4_umit_never_returned toksUmit _ (by decide)⟩

/-- Claim C7: for every document and tokenization, if the candidate pool
assembled by `extract_patient_name` is empty the result is `none`; otherwise
the result is the pool element of maximum confidence, and among equal maximal
confidences the earliest-discovered candidate (everything before it in the
pool is strictly smaller). -/
theorem c7_selection_invariant (text : List Char) (toks : List Tok) :
    (candidatePool text toks = [] → extract_patient_name text toks = none) ∧
    ∀ c, extract_patient_name text toks = some c →
      ∃ l1 l2, candidatePool text toks = l1 ++ c :: l2 ∧
        (∀ d ∈ l1, d.confidence < c.confidence) ∧
        (∀ d ∈ candidatePool text toks, d.confidence ≤ c.confidence) := by
  constructor
  · intro h
    unfold extract_patient_name
    rw [h]
    rfl
  · intro c hc
    exact pyMaxCand_eq_some hc

/-- Witness for C7 at the document `docMehmet` (empty token list: the regex
pool is non-empty, so the fallback is never consulted). -/
theorem c7_selection_invariant_witness :
    ∃ l1 l2, candidatePool docMehmet [] =
        l1 ++ (⟨"Mehmet Yilmaz", 18, 31, mkRat 9 10, "pattern_matching"⟩ : Cand) :: l2 ∧
      (∀ d ∈ l1, d.confidence <
        (⟨"Mehmet Yilmaz", 18, 31, mkRat 9 10, "pattern_matching"⟩ : Cand).confidence) ∧
      (∀ d ∈ candidatePool docMehmet [], d.confidence ≤
        (⟨"Mehmet Yilmaz", 18, 31, mkRat 9 10, "pattern_matching"⟩ : Cand).confidence) :=
  (c7_selection_invariant docMehmet []).2 _ (by decide)

/-- Claim C8 (code bug): on the exact input `HASTA ADI SOYADI: ONUR AYDOĞDU`
the code returns the name `Onur Aydo` — not `Onur Aydoğdu` as the claim
states — because the mojibake-corrupted character class of the regex does not
contain Ğ U+011E, so the capture stops before it.  Method and confidence are
as claimed (`pattern_matching`, 0.9), and the result is independent of the
tokenization because the regex pool is non-empty. -/
theorem c8_onur_aydo_eval :
    extract_patient_name docOnur [] =
      some ⟨"Onur Aydo", 18, 27, mkRat 9 10, "pattern_matching"⟩ ∧
    ("Onur Aydo" : String) ≠ "Onur Aydoğdu" := by
  exact ⟨by decide, by decide⟩

/-- Claim C2, counterexample: in the text `abr abr` the dictionary term `ABR`
occurs (case-insensitively) at index 0 and again at index 4, but
`_extract_medical_terms` reports exactly one hit — at the first occurrence —
not one hit per occurrence. -/
theorem c2_counterexample :
    ((extract_medical_terms medical_terms_table (("abr abr").data)).filter
        fun h => h.term == "ABR") =
      [⟨"ABR", "procedures", 0, 3⟩] ∧
    OccursAt (pyLowerL (("abr abr").data)) (pyLowerL (("ABR").data)) 4 := by
  exact ⟨by decide, by decide⟩

/-- Claim C2 (amended): for every dictionary term, `_extract_medical_terms`
reports at most one hit (never duplicates for a recurring term), and it
reports a hit for the term — under its category — exactly when the term
occurs as a case-insensitive substring, positioned at the first
occurrence. -/
theorem c2_one_hit_per_term (text : List Char) (cat : String)
    (terms : List String) (term : String)
    (hct : (cat, terms) ∈ medical_terms_table) (hterm : term ∈ terms) :
    ((extract_medical_terms medical_terms_table text).filter
        fun h => h.term == term).length ≤ 1 ∧
    (containsSub (pyLowerL text) (pyLowerL term.data) = true →
      ∃ h2 ∈ extract_medical_terms medical_terms_table text,
        h2.term = term ∧ h2.category = cat ∧
        ∃ n : Nat, h2.start = (n : Int) ∧
          OccursAt (pyLowerL text) (pyLowerL term.data) n ∧
          ∀ m, m < n → ¬ OccursAt (pyLowerL text) (pyLowerL term.data) m) := by
  constructor
  · rw [length_filter_term]
    have hmapeq : ((extract_medical_terms medical_terms_table text).map
        fun h => h.term) =
        (((medical_terms_table.flatMap fun ct => ct.2.map fun t => (ct.1, t)).filter
          (fun p => containsSub (pyLowerL text) (pyLowerL p.2.data))).map Prod.snd) := by
      rw [← extract_terms_pairs_eq, List.map_map]
      rfl
    rw [hmapeq]
    have hsub : (((medical_terms_table.flatMap fun ct => ct.2.map fun t => (ct.1, t)).filter
          (fun p => containsSub (pyLowerL text) (pyLowerL p.2.data))).map Prod.snd).Sublist
        ((medical_terms_table.flatMap fun ct => ct.2.map fun t => (ct.1, t)).map Prod.snd) :=
      List.Sublist.map Prod.snd (List.filter_sublist _)
    exact le_trans (hsub.count_le term)
      (List.nodup_iff_count_le_one.mp dict_terms_nodup term)
  · intro hocc
    obtain ⟨n, hn, hoccn, hmin⟩ := pyFindI_spec _ _ hocc
    refine ⟨⟨term, cat, pyFindI (pyLowerL text) (pyLowerL term.data),
      pyFindI (pyLowerL text) (pyLowerL term.data) + (term.data.length : Int)⟩,
      ?_, rfl, rfl, n, hn, hoccn, hmin⟩
    simp only [extract_medical_terms]
    refine List.mem_flatMap.mpr ⟨(cat, terms), hct, ?_⟩
    refine List.mem_filterMap.mpr ⟨term, hterm, ?_⟩
    rw [if_pos hocc]

/-- Witness for C2 (amended) at the term `ABR` in the text `abr abr`. -/
theorem c2_one_hit_per_term_witness :
    ((extract_medical_terms medical_terms_table (("abr abr").data)).filter
        fun h => h.term == "ABR").length ≤ 1 ∧
    (containsSub (pyLowerL (("abr abr").data)) (pyLowerL (("ABR").data)) = true →
      ∃ h2 ∈ extract_medical_terms medical_terms_table (("abr abr").data),
        h2.term = "ABR" ∧ h2.category = "procedures" ∧
        ∃ n : Nat, h2.start = (n : Int) ∧
          OccursAt (pyLowerL (("abr abr").data)) (pyLowerL (("ABR").data)) n ∧
          ∀ m, m < n →
            ¬ OccursAt (pyLowerL (("abr abr").data)) (pyLowerL (("ABR").data)) m) :=
  c2_one_hit_per_term (("abr abr").data) "procedures"
    ["odyometri", "audiometry", "iÅŸitme testi", "timpanometri", "ABR",
     "ameliyat", "surgery"] "ABR" (by decide) (by decide)

/-- Claim C3: the classifier's first rule wins, so every text that contains
`sgk` (and also `reçete`) case-insensitively classifies as
`sgk_device_report` with confidence exactly 0.95. -/
theorem c3_sgk_precedes_prescription (text : List Char)
    (h1 : ∃ i, OccursAt (pyLowerL text) (("sgk").data) i)
    (_h2 : ∃ i, OccursAt (pyLowerL text) (("reçete").data) i) :
    classify_document text = ("sgk_device_report", mkRat 19 20) := by
  have hc : containsSub (pyLowerL text) (("sgk").data) = true :=
    (containsSub_iff_occurs _ _).mpr h1
  have hany : (sgkKeys.any fun k => containsSub (pyLowerL text) k.data) = true :=
    List.any_eq_true.mpr ⟨"sgk", by decide, hc⟩
  simp only [classify_document, hany, if_true]

/-- Witness for C3 at the text `sgk reçete`. -/
theorem c3_sgk_precedes_prescription_witness :
    classify_document (("sgk reçete").data) = ("sgk_device_report", mkRat 19 20) :=
  c3_sgk_precedes_prescription (("sgk reçete").data) ⟨0, by decide⟩ ⟨4, by decide⟩

/-- Claim C5: with an empty or absent text field, each of the three routes
answers the 400 rejection with its source message and never applies the
extraction handler (the result is `badRequest`, not `ok`). -/
theorem c5_empty_input_rejected (α β : Type) (f : List Char → α)
    (g : List Char → List Char → β) (t t1 t2 : Option String)
    (ht : t = none ∨ t = some "")
    (ht12 : t1 = none ∨ t1 = some "" ∨ t2 = none ∨ t2 = some "") :
    process_route f t = RouteResp.badRequest "No text provided" ∧
    extract_patient_route f t = RouteResp.badRequest "No text provided" ∧
    similarity_route g t1 t2 = RouteResp.badRequest "Both texts required" := by
  refine ⟨?_, ?_, ?_⟩
  · rcases ht with rfl | rfl <;> rfl
  · rcases ht with rfl | rfl <;> rfl
  · rcases ht12 with rfl | rfl | rfl | rfl <;> simp [similarity_route]

/-- Witness for C5: absent `text` on the document routes, absent `text1` on
the similarity route. -/
theorem c5_empty_input_rejected_witness :
    process_route (fun l => l.length) none = RouteResp.badRequest "No text provided" ∧
    extract_patient_route (fun l => l.length) none =
      RouteResp.badRequest "No text provided" ∧
    similarity_route (fun l1 l2 => l1.length + l2.length) none (some "x") =
      RouteResp.badRequest "Both texts required" :=
  c5_empty_input_rejected Nat Nat (fun l => l.length)
    (fun l1 l2 => l1.length + l2.length) none none (some "x")
    (Or.inl rfl) (Or.inl rfl)

/-- Claim C6: `initialize` never fails hard: for every outcome of the ordered
model-loading attempts the resulting state is initialized with a usable
pipeline, and when every attempt fails (the `OSError` / model-unavailable
outcome the loop catches) the pipeline is the blank
sentence-segmentation-only one. -/
theorem c6_initService_never_fails (loadable : String → Bool) (s : ServiceState) :
    (initService loadable s).initialized = true ∧
    (initService loadable s).nlp ≠ none ∧
    ((∀ m ∈ modelsToTry, loadable m = false) →
      (initService loadable s).nlp = some Pipeline.blankWithSentencizer) := by
  refine ⟨rfl, by simp [initService], ?_⟩
  intro hall
  have hfind : modelsToTry.find? loadable = none :=
    List.find?_eq_none.mpr fun x hx => by simp [hall x hx]
  simp [initService, loadPipeline, hfind]

/-- Witness for C6 in the worst tier: no model loads. -/
theorem c6_initService_never_fails_witness :
    (initService (fun _ => false) ⟨none, [], [], false⟩).nlp =
      some Pipeline.blankWithSentencizer ∧
    (initService (fun _ => false) ⟨none, [], [], false⟩).initialized = true :=
  ⟨(c6_initService_never_fails (fun _ => false) ⟨none, [], [], false⟩).2.2
      (by decide),
    (c6_initService_never_fails (fun _ => false) ⟨none, [], [], false⟩).1⟩

/-- Claim C9: re-running `initialize` with the same loading environment
leaves the service in the same operative state as running it once (every
field — pipeline, matcher patterns, term dictionary, initialized flag — is
overwritten deterministically), and the flag is set. -/
theorem c9_initService_idempotent (loadable : String → Bool) (s : ServiceState) :
    initService loadable (initService loadable s) = initService loadable s ∧
    (initService loadable s).initialized = true :=
  ⟨rfl, rfl⟩

/-- Claim C10: the hits of `_extract_medical_terms` appear in the fixed
table iteration order (the hits' category/term pairs are exactly the
flattened table filtered to the terms that occur), and every hit ends at
`start + length(term)` and starts at the first case-insensitive occurrence of
the term, which exists — so `start` is never `-1`. -/
theorem c10_hits_table_order_first_occurrence (text : List Char) :
    (((extract_medical_terms medical_terms_table text).map
        fun h => (h.category, h.term)) =
      (medical_terms_table.flatMap fun ct => ct.2.map fun t => (ct.1, t)).filter
        (fun p => containsSub (pyLowerL text) (pyLowerL p.2.data))) ∧
    ∀ h2 ∈ extract_medical_terms medical_terms_table text,
      h2.endPos = h2.start + (h2.term.data.length : Int) ∧
      ∃ n : Nat, h2.start = (n : Int) ∧
        OccursAt (pyLowerL text) (pyLowerL h2.term.data) n ∧
        ∀ m, m < n → ¬ OccursAt (pyLowerL text) (pyLowerL h2.term.data) m := by
  refine ⟨extract_terms_pairs_eq medical_terms_table text, ?_⟩
  intro h2 hmem
  simp only [extract_medical_terms] at hmem
  obtain ⟨ct, -, hmem2⟩ := List.mem_flatMap.mp hmem
  obtain ⟨term, -, hsome⟩ := List.mem_filterMap.mp hmem2
  split at hsome
  · rename_i hocc
    injection hsome with hsome
    subst hsome
    refine ⟨rfl, ?_⟩
    obtain ⟨n, hn, hoccn, hmin⟩ := pyFindI_spec _ _ hocc
    exact ⟨n, hn, hoccn, hmin⟩
  · cases hsome

/-- Witness for C10 at the text `abr` and its single hit. -/
theorem c10_hits_table_order_first_occurrence_witness :
    (⟨"ABR", "procedures", 0, 3⟩ : MedicalTermHit).endPos =
      (⟨"ABR", "procedures", 0, 3⟩ : MedicalTermHit).start +
        ((("ABR" : String)).data.length : Int) ∧
    ∃ n : Nat, (⟨"ABR", "procedures", 0, 3⟩ : MedicalTermHit).start = (n : Int) ∧
      OccursAt (pyLowerL (("abr").data)) (pyLowerL (("ABR" : String)).data) n ∧
      ∀ m, m < n → ¬ OccursAt (pyLowerL (("abr").data)) (pyLowerL (("ABR" : String)).data) m :=
  (c10_hits_table_order_first_occurrence (("abr").data)).2
    ⟨"ABR", "procedures", 0, 3⟩ (by decide)

end XEarSpacy
